import Mathlib

/-!
Verification of the Atlas backend (repository ingestion, chunking, import-graph
extraction, retrieval ranking, citation parsing and determinism validation).

The Python sources under `backend/` are shallowly embedded below.  Conventions:

* Python strings are Lean `String`s; all operations on them are implemented
  over their underlying `List Char` so that every definition evaluates inside
  the kernel.  Python string truthiness of `s.strip()` is modelled by
  `pyStripTruthy` (the string contains a non-whitespace character).
* Python dicts built by item assignment / `update` are modelled by ordered
  association lists (`pyDictInsert` replaces the value of an existing key in
  place and appends new keys, exactly like CPython insertion-ordered dicts).
* `list.sort` / `sorted` (Timsort, stable) is modelled by
  `List.insertionSort`, which is also stable, so both produce the same output
  for every input.
* Calls to external services (the language-model capability, the file system,
  the regex engine, the vector index) are parameters of the embedded
  functions: an oracle argument supplies exactly the data the Python code
  reads from the corresponding library call.
* Floating point distances are modelled by `ℚ`; rounding to six fractional
  digits is modelled by `pyRoundMicro` (round half to even, as Python's
  `round`), which returns the rounded value scaled by 10^6 as an integer so
  that comparisons of rounded distances agree with the source.
-/

namespace Atlas

/-! ## Python-style helper functions -/

/-- Truthiness of `s.strip()` in Python: the string contains at least one
non-whitespace character. -/
def pyStripTruthy (s : String) : Bool :=
  s.data.any (fun c => !c.isWhitespace)

/-- `"".join(parts)`. -/
def pyJoin (parts : List String) : String :=
  ⟨(parts.map String.data).flatten⟩

/-- `sep.join(parts)`. -/
def pyJoinSep (sep : String) (parts : List String) : String :=
  ⟨List.intercalate sep.data (parts.map String.data)⟩

/-- Decimal digits of a natural number (auxiliary, fuel-driven so that it
reduces in the kernel). -/
def natDecAux : Nat → Nat → List Char
  | 0, _ => []
  | fuel + 1, n =>
    if n = 0 then [] else natDecAux fuel (n / 10) ++ [Char.ofNat (48 + n % 10)]

/-- Decimal representation of a natural number, as Python's `str(n)`. -/
def natDec (n : Nat) : List Char :=
  if n = 0 then ['0'] else natDecAux n n

/-- Python `str(n)` for a natural number, as a `String`. -/
def natStr (n : Nat) : String := ⟨natDec n⟩

/-- Python `str(i)` for an integer. -/
def intStr (i : Int) : String :=
  if i < 0 then ⟨'-' :: natDec i.natAbs⟩ else ⟨natDec i.natAbs⟩

/-- Insertion into a Python dict modelled as an ordered association list:
an existing key keeps its position and gets the new value, a new key is
appended (CPython dict semantics). -/
def pyDictInsert {α : Type} (d : List (String × α)) (k : String) (v : α) :
    List (String × α) :=
  match d with
  | [] => [(k, v)]
  | (k', v') :: t => if k' = k then (k', v) :: t else (k', v') :: pyDictInsert t k v

/-- `d.get(k)` on a Python dict. -/
def pyDictGet {α : Type} (d : List (String × α)) (k : String) : Option α :=
  (d.find? (fun p => p.1 = k)).map (fun p => p.2)

/-- `d.update(kvs)` on a Python dict. -/
def pyDictUpdate {α : Type} (d : List (String × α)) (kvs : List (String × α)) :
    List (String × α) :=
  kvs.foldl (fun acc p => pyDictInsert acc p.1 p.2) d

/-- Auxiliary, fuel-driven batching. -/
def pyBatchesAux {α : Type} (n : Nat) : Nat → List α → List (List α)
  | 0, _ => []
  | _ + 1, [] => []
  | fuel + 1, x :: xs => (x :: xs).take n :: pyBatchesAux n fuel ((x :: xs).drop n)

/-- `[xs[i:i+n] for i in range(0, len(xs), n)]` for `n ≥ 1`: consecutive
batches of at most `n` elements. -/
def pyBatches {α : Type} (n : Nat) (xs : List α) : List (List α) :=
  pyBatchesAux n xs.length xs

/-! ## config.py -/

def CHUNK_SIZE : Nat := 80
def CHUNK_OVERLAP : Nat := 10
def IMPORTANCE_THRESHOLD : Int := 6
def ANALYSIS_BATCH_SIZE : Nat := 12
def ANALYSIS_MAX_LINES : Nat := 150

/-! ## parser.py — chunking -/

/-- A chunk dict as produced by `chunk_file`. -/
structure Chunk where
  file : String
  start_line : Nat
  end_line : Nat
  text : String
deriving DecidableEq, Repr

/-- The `while start < len(lines)` loop of `chunk_file`.  The fuel argument
only drives the recursion; `lines.length` iterations always suffice because
the window start advances by `CHUNK_SIZE - CHUNK_OVERLAP = 70 ≥ 1` lines per
iteration. -/
def chunkLoop (rel : String) (lines : List String) : Nat → Nat → List Chunk
  | 0, _ => []
  | fuel + 1, start =>
    if start < lines.length then
      let e := min (start + CHUNK_SIZE) lines.length
      let text := pyJoin ((lines.drop start).take (e - start))
      let rest := chunkLoop rel lines fuel (start + (CHUNK_SIZE - CHUNK_OVERLAP))
      if pyStripTruthy text then
        { file := rel, start_line := start + 1, end_line := e, text := text } :: rest
      else rest
    else []

/-- `chunk_file` from `parser.py`, applied to the file content (list of lines
including their trailing newline, as `readlines` returns them). -/
def chunk_file (rel : String) (lines : List String) : List Chunk :=
  chunkLoop rel lines lines.length 0

/-- `chunk_file` on a file read through a reader oracle; an unreadable file
(`none`) yields no chunks, as the `try/except` in the source. -/
def chunk_file_read (reader : String → Option (List String)) (rel : String) :
    List Chunk :=
  match reader rel with
  | none => []
  | some lines => chunk_file rel lines

/-! ## parser.py — import / dependency extraction

The path arithmetic (`os.path.dirname`, `os.path.join`, `os.path.normpath`,
`pathlib.Path.suffix`) is reimplemented below following the POSIX variants
used by the source. -/

/-- `os.path.dirname` (posixpath): everything before the last `/`, with
trailing slashes stripped unless the head consists only of slashes. -/
def pyDirname (s : String) : String :=
  let head := (s.data.reverse.dropWhile (fun c => c ≠ '/')).reverse
  if head ≠ [] ∧ head.any (fun c => c ≠ '/') then
    ⟨(head.reverse.dropWhile (fun c => c = '/')).reverse⟩
  else ⟨head⟩

/-- `os.path.join(a, b)` (posixpath, two components). -/
def pyPathJoin (a b : String) : String :=
  if b.data.head? = some '/' then b
  else if a.data = [] ∨ a.data.getLast? = some '/' then ⟨a.data ++ b.data⟩
  else ⟨a.data ++ '/' :: b.data⟩

/-- `os.path.join(a, b, c)` (posixpath folds left over the components). -/
def pyPathJoin3 (a b c : String) : String := pyPathJoin (pyPathJoin a b) c

/-- Python `str.split('/')` on the character list. -/
def splitSlash : List Char → List (List Char)
  | [] => [[]]
  | c :: rest =>
    match splitSlash rest with
    | [] => [[]]
    | h :: t => if c = '/' then [] :: h :: t else (c :: h) :: t

/-- The component-processing loop of `posixpath.normpath`. -/
def normpathComps (initialSlashes : Bool) (comps : List (List Char)) :
    List (List Char) :=
  comps.foldl
    (fun acc comp =>
      if comp = [] ∨ comp = ['.'] then acc
      else if comp ≠ ['.', '.'] ∨ (¬initialSlashes ∧ acc = []) ∨
          (acc ≠ [] ∧ acc.getLast? = some ['.', '.']) then acc ++ [comp]
      else if acc ≠ [] then acc.dropLast
      else acc)
    []

/-- `os.path.normpath` (posixpath). -/
def pyNormpath (s : String) : String :=
  if s.data = [] then "."
  else
    let initialSlashes : Bool := s.data.head? = some '/'
    let doubleSlash : Bool :=
      s.data.take 2 = ['/', '/'] ∧ s.data.take 3 ≠ ['/', '/', '/']
    let comps := normpathComps initialSlashes (splitSlash s.data)
    let joined := List.intercalate ['/'] comps
    let withSlashes :=
      if initialSlashes then
        (if doubleSlash then ['/', '/'] else ['/']) ++ joined
      else joined
    if withSlashes = [] then "." else ⟨withSlashes⟩

/-- `target.lstrip("./")`: remove every leading character that is a dot or a
slash. -/
def pyLstripDotSlash (s : String) : String :=
  ⟨s.data.dropWhile (fun c => c = '.' ∨ c = '/')⟩

/-- `target.replace(".", "/")` (single-character pattern, hence a map). -/
def pyReplaceDotBySlash (s : String) : String :=
  ⟨s.data.map (fun c => if c = '.' then '/' else c)⟩

/-- `pathlib.Path(s).suffix`: the extension of the final component, empty for
names that start with the only dot or end in a dot. -/
def pySuffixExt (s : String) : String :=
  let name := (s.data.reverse.takeWhile (fun c => c ≠ '/')).reverse
  let pre := name.reverse.takeWhile (fun c => c ≠ '.')
  if pre.length + 1 < name.length ∧ pre.length ≠ 0 then ⟨'.' :: pre.reverse⟩
  else ""

/-- `_resolve_relative_import` from `parser.py`.  The known-file set is the
list of repository files (membership is all that is used of the Python
`set`). -/
def _resolve_relative_import (source_file target0 : String)
    (all_files : List String) : Option String :=
  let source_dir := pyDirname source_file
  let target := pyLstripDotSlash target0
  let candidates : List String :=
    [pyNormpath (pyPathJoin source_dir target),
     pyNormpath (pyPathJoin source_dir (target ++ ".py")),
     pyNormpath (pyPathJoin source_dir (target ++ ".ts")),
     pyNormpath (pyPathJoin source_dir (target ++ ".tsx")),
     pyNormpath (pyPathJoin source_dir (target ++ ".js")),
     pyNormpath (pyPathJoin source_dir (target ++ ".jsx")),
     pyNormpath (pyPathJoin3 source_dir target "index.ts"),
     pyNormpath (pyPathJoin3 source_dir target "index.tsx"),
     pyNormpath (pyPathJoin3 source_dir target "index.js"),
     pyNormpath (pyPathJoin3 source_dir target "__init__.py")]
  match candidates.find? (fun c => all_files.contains c) with
  | some c => some c
  | none =>
    let dotted := pyReplaceDotBySlash target
    (["", ".py", "/__init__.py"].map (fun suf => pyNormpath (dotted ++ suf))).find?
      (fun c => all_files.contains c)

/-- An edge dict `{"source": ..., "target": ...}`. -/
structure Edge where
  source : String
  target : String
deriving DecidableEq, Repr

/-- The extensions that have an entry in `_IMPORT_PATTERNS`. -/
def importPatternExts : List String :=
  [".py", ".js", ".jsx", ".ts", ".tsx", ".go", ".rs", ".java", ".rb"]

/-- The inner loops of `extract_edges` for one file: process the captured
module specifiers in order, adding `{source, target}` edges that resolve,
are not self-edges and were not seen before.  The accumulator carries the
`seen` set (as a list of pairs) and the edge list. -/
def extractEdgesTargets (all_files : List String) (rel : String) :
    List String → List (String × String) × List Edge →
      List (String × String) × List Edge
  | [], acc => acc
  | t :: ts, acc =>
    let acc' :=
      match _resolve_relative_import rel t all_files with
      | some resolved =>
        if resolved ≠ rel ∧ ¬acc.1.contains (rel, resolved) then
          (acc.1 ++ [(rel, resolved)], acc.2 ++ [⟨rel, resolved⟩])
        else acc
      | none => acc
    extractEdgesTargets all_files rel ts acc'

/-- `extract_edges` from `parser.py`.  The regex machinery is abstracted as a
`matcher` oracle: `matcher ext content` is the list of captured module
specifiers produced by iterating the patterns of `_IMPORT_PATTERNS[ext]` over
the file content; `reader rel` is the file content (`none` models a read
failure, which skips the file). -/
def extract_edges (matcher : String → String → List String)
    (reader : String → Option String) (files : List String) : List Edge :=
  (files.foldl
    (fun acc rel =>
      if importPatternExts.contains (pySuffixExt rel) then
        match reader rel with
        | some content =>
          extractEdgesTargets files rel (matcher (pySuffixExt rel) content) acc
        | none => acc
      else acc)
    ([], [])).2

/-! ## embeddings.py — query_chunks

Distances reported by the vector index are floats; they are embedded as `ℚ`.
`round(x, 6)` is modelled by `pyRoundMicro`, which produces the rounded value
scaled by `10^6` as an integer (round half to even, like Python); comparisons
between two distances rounded to six fractional digits coincide with
comparisons of their scaled integer representatives, and the rounded value
never leaves `query_chunks` (it is popped before returning). -/

/-- `round(q * 10^6)` with ties to even, computed from the numerator and
denominator so that it evaluates inside the kernel. -/
def pyRoundMicro (q : ℚ) : ℤ :=
  let n := q.num * 1000000
  let d : ℤ := (q.den : ℤ)
  let f := Int.fdiv n d
  let r := n - f * d
  if d < 2 * r then f + 1
  else if 2 * r < d then f
  else if f % 2 = 0 then f else f + 1

/-- One match produced by the vector-search capability: document text,
metadata and raw distance. -/
structure RetrievedMatch where
  text : String
  file : String
  start_line : Nat
  end_line : Nat
  dist : ℚ
deriving DecidableEq, Repr

/-- A chunk dict inside `query_chunks`: the `distance` key holds the rounded
distance (scaled by `10^6`) until it is popped (`none`). -/
structure RankedChunk where
  text : String
  file : String
  start_line : Nat
  end_line : Nat
  distance : Option ℤ
deriving DecidableEq, Repr

/-- The list `out` of `query_chunks` after the rounding loop: one dict per
match, the `distance` key holding the rounded distance. -/
def rankedPool (ms : List RetrievedMatch) : List RankedChunk :=
  ms.map (fun m =>
    { text := m.text, file := m.file, start_line := m.start_line,
      end_line := m.end_line, distance := some (pyRoundMicro m.dist) })

/-- The sort key `(c["distance"], c["file"], c["start_line"], c["end_line"])`
with Python's lexicographic tuple order; strings compare by code points,
which is the lexicographic order on their character lists. -/
def rankKey (c : RankedChunk) : Lex (ℤ × Lex (List Char × Lex (ℕ × ℕ))) :=
  toLex (c.distance.getD 0, toLex (c.file.data, toLex (c.start_line, c.end_line)))

/-- The comparison used by `out.sort(key=...)`. -/
def rankLe (a b : RankedChunk) : Prop := rankKey a ≤ rankKey b

instance : DecidableRel rankLe := fun a b => inferInstanceAs (Decidable (_ ≤ _))

instance : IsTotal RankedChunk rankLe := ⟨fun a b => le_total (rankKey a) (rankKey b)⟩

instance : IsTrans RankedChunk rankLe := ⟨fun _ _ _ h h' => le_trans h h'⟩

/-- The list `out` after `out.sort(key=...)` (Timsort is stable, as is
`insertionSort`). -/
def rankedSorted (ms : List RetrievedMatch) : List RankedChunk :=
  List.insertionSort rankLe (rankedPool ms)

/-- `query_chunks` from `embeddings.py`, as a function of the matches the
vector-search capability returns for the query: round the distances, sort by
`(distance, file, start_line, end_line)`, then pop the internal `distance`
key. -/
def query_chunks (ms : List RetrievedMatch) : List RankedChunk :=
  (rankedSorted ms).map (fun c => { c with distance := none })

/-! ## validation.py — hash_output

`hash_output` normalizes the output dict (citations and chunks sorted by
`(file, start_line, end_line)`), serializes it with
`json.dumps(..., sort_keys=True, separators=(",", ":"))` and digests the
UTF-8 bytes with SHA-256.  The serialization (an ASCII string, thanks to
`ensure_ascii`) is reproduced below character by character.  The SHA-256
digest itself is a fixed function applied on top: two outputs have equal
digests iff their serializations are equal (up to SHA-256 collisions, which
the source's determinism contract assumes away), so the embedding lets
`hash_output` return the serialized normalized form that is digested. -/

/-- A citation dict `{"file", "start_line", "end_line"}`. -/
structure Citation where
  file : String
  start_line : Nat
  end_line : Nat
deriving DecidableEq, Repr

/-- A chunk dict as it appears in a query output: `query_chunks` has popped
the `distance` key, leaving `text`, `file`, `start_line`, `end_line`. -/
structure OutChunk where
  text : String
  file : String
  start_line : Nat
  end_line : Nat
deriving DecidableEq, Repr

/-- An output dict with `answer`, `citations` and `chunks` keys. -/
structure RagOutput where
  answer : String
  citations : List Citation
  chunks : List OutChunk
deriving DecidableEq, Repr

/-- Lower-case hexadecimal digit. -/
def hexDig (d : Nat) : Char :=
  if d < 10 then Char.ofNat (48 + d) else Char.ofNat (87 + d)

/-- Four-digit lower-case hexadecimal representation (`'\u%04x'`). -/
def hex4 (n : Nat) : List Char :=
  [hexDig (n / 4096 % 16), hexDig (n / 256 % 16), hexDig (n / 16 % 16), hexDig (n % 16)]

/-- `json.dumps` escaping of one character with `ensure_ascii=True`: the
short escapes for quote, backslash and the five named control characters,
printable ASCII verbatim, `\uXXXX` for every other BMP character and a
surrogate pair for astral characters. -/
def jsonEscapeChar (c : Char) : List Char :=
  if c = '"' then ['\\', '"']
  else if c = '\\' then ['\\', '\\']
  else if c = '\x08' then ['\\', 'b']
  else if c = '\t' then ['\\', 't']
  else if c = '\n' then ['\\', 'n']
  else if c = '\x0c' then ['\\', 'f']
  else if c = '\r' then ['\\', 'r']
  else if 0x20 ≤ c.toNat ∧ c.toNat ≤ 0x7e then [c]
  else if c.toNat < 0x10000 then '\\' :: 'u' :: hex4 c.toNat
  else
    let n := c.toNat - 0x10000
    ('\\' :: 'u' :: hex4 (0xd800 + n / 0x400)) ++ ('\\' :: 'u' :: hex4 (0xdc00 + n % 0x400))

/-- `json.dumps` escaping of a character list. -/
def jsonEscape : List Char → List Char
  | [] => []
  | c :: rest => jsonEscapeChar c ++ jsonEscape rest

/-- A JSON string literal. -/
def jsonStr (s : String) : List Char :=
  '"' :: jsonEscape s.data ++ ['"']

/-- A JSON array with `","` separators. -/
def jsonArr (elems : List (List Char)) : List Char :=
  '[' :: List.intercalate [','] elems ++ [']']

/-- Serialization of a citation dict with sorted keys
(`end_line < file < start_line`). -/
def citationJson (c : Citation) : List Char :=
  '{' :: ("\"end_line\":".data ++ natDec c.end_line ++
    ",\"file\":".data ++ jsonStr c.file ++
    ",\"start_line\":".data ++ natDec c.start_line) ++ ['}']

/-- Serialization of a chunk dict with sorted keys
(`end_line < file < start_line < text`). -/
def chunkJson (c : OutChunk) : List Char :=
  '{' :: ("\"end_line\":".data ++ natDec c.end_line ++
    ",\"file\":".data ++ jsonStr c.file ++
    ",\"start_line\":".data ++ natDec c.start_line ++
    ",\"text\":".data ++ jsonStr c.text) ++ ['}']

/-- The key `(c.get("file",""), c.get("start_line",0), c.get("end_line",0))`
used to sort citations and chunks during normalization. -/
def citSortKey (c : Citation) : Lex (List Char × Lex (ℕ × ℕ)) :=
  toLex (c.file.data, toLex (c.start_line, c.end_line))

/-- Sort key for chunks during normalization (same fields). -/
def chunkSortKey (c : OutChunk) : Lex (List Char × Lex (ℕ × ℕ)) :=
  toLex (c.file.data, toLex (c.start_line, c.end_line))

/-- Comparison relation for sorting citations. -/
def citLe (a b : Citation) : Prop := citSortKey a ≤ citSortKey b

instance : DecidableRel citLe := fun a b => inferInstanceAs (Decidable (_ ≤ _))

instance : IsTotal Citation citLe := ⟨fun a b => le_total (citSortKey a) (citSortKey b)⟩

instance : IsTrans Citation citLe := ⟨fun _ _ _ h h' => le_trans h h'⟩

/-- Comparison relation for sorting chunks. -/
def chunkLe (a b : OutChunk) : Prop := chunkSortKey a ≤ chunkSortKey b

instance : DecidableRel chunkLe := fun a b => inferInstanceAs (Decidable (_ ≤ _))

instance : IsTotal OutChunk chunkLe := ⟨fun a b => le_total (chunkSortKey a) (chunkSortKey b)⟩

instance : IsTrans OutChunk chunkLe := ⟨fun _ _ _ h h' => le_trans h h'⟩

/-- `hash_output` from `validation.py`: the canonical serialization
(`sort_keys=True`, separators `(",", ":")`, key order
`answer < chunks < citations`) of the normalized output, which SHA-256 then
digests byte for byte. -/
def hash_output (o : RagOutput) : List Char :=
  '{' :: ("\"answer\":".data ++ jsonStr o.answer ++
    ",\"chunks\":".data ++
      jsonArr ((List.insertionSort chunkLe o.chunks).map chunkJson) ++
    ",\"citations\":".data ++
      jsonArr ((List.insertionSort citLe o.citations).map citationJson)) ++ ['}']

/-- `validate_deterministic` from `validation.py`. -/
def validate_deterministic (outputs : List RagOutput) (tolerance : Int) :
    Bool × Option String :=
  if outputs.length < 2 then (true, none)
  else
    let hashes := outputs.map hash_output
    let uniqueHashes := hashes.dedup.length
    if tolerance + 1 < (uniqueHashes : Int) then
      (false, some ("Found " ++ natStr uniqueHashes ++
        " different outputs (expected ≤" ++ intStr (tolerance + 1) ++ ")"))
    else
      let answers := outputs.map (fun o => o.answer)
      let uniqueAnswers := answers.dedup.length
      if tolerance + 1 < (uniqueAnswers : Int) then
        (false, some ("Found " ++ natStr uniqueAnswers ++
          " different answers (expected ≤" ++ intStr (tolerance + 1) ++ ")"))
      else (true, none)

/-! ## llm.py — batch file analysis -/

/-- One analysis record, as the batch-analysis prompt requests it and as the
default branch constructs it. -/
structure AnalysisRecord where
  importance_score : Int
  summary : String
  responsibilities : List String
  key_exports : List String
  onboarding_reason : String
deriving DecidableEq, Repr

/-- The default record assigned to every file of a batch whose response
fails to parse. -/
def defaultAnalysisRecord : AnalysisRecord :=
  { importance_score := 3, summary := "Analysis unavailable.",
    responsibilities := [], key_exports := [], onboarding_reason := "" }

/-- The `file_contents` list of `analyze_repo_files`: for each requested file
in order, read it (an unreadable file is skipped), truncate to
`ANALYSIS_MAX_LINES` lines, and keep it only if the joined text has
non-whitespace content. -/
def analysisFileContents (reader : String → Option (List String))
    (files : List String) : List (String × String) :=
  files.filterMap (fun rel =>
    match reader rel with
    | none => none
    | some lines =>
      let text := pyJoin (lines.take ANALYSIS_MAX_LINES)
      if pyStripTruthy text then some (rel, text) else none)

/-- `analyze_repo_files` from `llm.py`.  The language-model call together
with the fence-stripping and `json.loads` of its response is abstracted as
the `llm` oracle: for a batch it returns either the parsed key/value pairs
(`some parsed`, whose keys the model chooses) or `none` when the request or
the parse raises, in which case every file of the batch is assigned the
default record. -/
def analyze_repo_files (reader : String → Option (List String))
    (llm : List (String × String) → Option (List (String × AnalysisRecord)))
    (files : List String) : List (String × AnalysisRecord) :=
  (pyBatches ANALYSIS_BATCH_SIZE (analysisFileContents reader files)).foldl
    (fun results batch =>
      match llm batch with
      | some parsed => pyDictUpdate results parsed
      | none =>
        batch.foldl (fun r p => pyDictInsert r p.1 defaultAnalysisRecord) results)
    []

/-! ## llm.py — answer generation and citation extraction -/

/-- Value of a decimal digit string, as Python's `int`. -/
def digitsToNat (ds : List Char) : Nat :=
  ds.foldl (fun acc c => 10 * acc + (c.toNat - 48)) 0

/-- One attempt of the regex `\[([^:\]]+):(\d+)-(\d+)\]` anchored at the
current position.  The character class `[^:\]]` cannot match `:`, and `\d`
cannot match `-` or `]`, so the greedy quantifiers are deterministic: the
match succeeds iff the group runs are non-empty and followed by the required
literal, and on success the scanner resumes after the closing bracket. -/
def matchCitationAt (cs : List Char) : Option (Citation × List Char) :=
  match cs with
  | [] => none
  | c0 :: rest =>
    if c0 = '[' then
      let fileTok := rest.takeWhile (fun c => c ≠ ':' ∧ c ≠ ']')
      match rest.dropWhile (fun c => c ≠ ':' ∧ c ≠ ']') with
      | c1 :: r2 =>
        if c1 = ':' then
          if fileTok = [] then none
          else
            let d1 := r2.takeWhile Char.isDigit
            match r2.dropWhile Char.isDigit with
            | c2 :: r4 =>
              if c2 = '-' then
                if d1 = [] then none
                else
                  let d2 := r4.takeWhile Char.isDigit
                  match r4.dropWhile Char.isDigit with
                  | c3 :: r6 =>
                    if c3 = ']' then
                      if d2 = [] then none
                      else some (⟨⟨fileTok⟩, digitsToNat d1, digitsToNat d2⟩, r6)
                    else none
                  | [] => none
              else none
            | [] => none
        else none
      | [] => none
    else none

/-- The scanning loop of `re.finditer`: try a match at every position,
resume after each match (fuel-driven; the remainder of a successful match is
a suffix of the tail, so `cs.length` steps always suffice). -/
def scanCitationsAux : Nat → List Char → List Citation
  | 0, _ => []
  | _ + 1, [] => []
  | fuel + 1, c :: rest =>
    match matchCitationAt (c :: rest) with
    | some (cit, r) => cit :: scanCitationsAux fuel r
    | none => scanCitationsAux fuel rest

/-- All citations extracted from an answer text, in order. -/
def scanCitations (cs : List Char) : List Citation :=
  scanCitationsAux cs.length cs

/-- The per-chunk context header of `generate_answer`. -/
def contextPart (i : Nat) (c : RankedChunk) : String :=
  "--- Chunk " ++ natStr (i + 1) ++ ": " ++ c.file ++ " (lines " ++
    natStr c.start_line ++ "-" ++ natStr c.end_line ++ ") ---\n" ++ c.text

/-- The result dict of `generate_answer`. -/
structure AnswerResult where
  answer : String
  citations : List Citation
  chunks : List RankedChunk
deriving Repr

/-- `generate_answer` from `llm.py`: build the grounded prompt, obtain the
answer text from the language-model capability (the `llm` oracle maps the
user message to the returned text), and extract the citation markers. -/
def generate_answer (llm : String → String) (question : String)
    (chunks : List RankedChunk) : AnswerResult :=
  let context := pyJoinSep "\n\n" (chunks.mapIdx (fun i c => contextPart i c))
  let answer_text := llm ("Code context:\n" ++ context ++ "\n\nQuestion: " ++ question)
  { answer := answer_text, citations := scanCitations answer_text.data,
    chunks := chunks }

/-! ## llm.py — onboarding path -/

/-- A parsed step of the language model's onboarding-path response: a JSON
object whose `file` and `reason` keys may each be missing. -/
structure StepIn where
  file : Option String
  reason : Option String
deriving DecidableEq, Repr

/-- An enriched onboarding step: exactly the six keys the source constructs. -/
structure StepOut where
  file : String
  summary : String
  reason : String
  importance_score : Int
  responsibilities : List String
  key_exports : List String
deriving DecidableEq, Repr

/-- Stable descending sort by importance score:
`sorted(items, key=lambda x: x[1].get("importance_score", 0), reverse=True)`. -/
def sortByScoreDesc (items : List (String × AnalysisRecord)) :
    List (String × AnalysisRecord) :=
  List.insertionSort
    (fun a b => b.2.importance_score ≤ a.2.importance_score) items

/-- The `important` dict of `generate_onboarding_path`: the files at or above
the importance threshold, or the top 10 by score if none qualify. -/
def importantAnalyses (file_analyses : List (String × AnalysisRecord)) :
    List (String × AnalysisRecord) :=
  let important := file_analyses.filter
    (fun p => IMPORTANCE_THRESHOLD ≤ p.2.importance_score)
  if important.isEmpty then (sortByScoreDesc file_analyses).take 10
  else important

/-- The `path` list of `generate_onboarding_path`: the parsed response of the
language-model capability (the `llm` oracle receives the data the prompt is
built from and returns the parsed JSON array, or `none` when the request or
the parse raises), or the importance-sorted fallback. -/
def onboardingRawPath
    (llm : List (String × AnalysisRecord) → List Edge → Option (List StepIn))
    (file_analyses : List (String × AnalysisRecord)) (edges : List Edge) :
    List StepIn :=
  let important := importantAnalyses file_analyses
  let relevant_edges := edges.filter
    (fun e => important.any (fun p => p.1 = e.source) ∧
      important.any (fun p => p.1 = e.target))
  match llm important relevant_edges with
  | some path => path
  | none =>
    (sortByScoreDesc important).map
      (fun p => { file := some p.1, reason := some "Sorted by importance score" })

/-- The enrichment of one step with the analysis data of its file; a file
absent from the analyses map receives the `.get` defaults. -/
def enrichStep (file_analyses : List (String × AnalysisRecord))
    (step : StepIn) : StepOut :=
  let f := step.file.getD ""
  match pyDictGet file_analyses f with
  | some a =>
    { file := f, summary := a.summary, reason := step.reason.getD "",
      importance_score := a.importance_score,
      responsibilities := a.responsibilities, key_exports := a.key_exports }
  | none =>
    { file := f, summary := "", reason := step.reason.getD "",
      importance_score := 0, responsibilities := [], key_exports := [] }

/-- `generate_onboarding_path` from `llm.py`. -/
def generate_onboarding_path
    (llm : List (String × AnalysisRecord) → List Edge → Option (List StepIn))
    (file_analyses : List (String × AnalysisRecord)) (edges : List Edge) :
    List StepOut :=
  (onboardingRawPath llm file_analyses edges).map (enrichStep file_analyses)

/-! ## main.py — the ingest progress stream

The SSE generator of the `/ingest` endpoint is embedded as a function from
an environment of stage outcomes to the list of emitted events paired with
the graph-cache write it performs (`none` when `_save_graph` is never
reached).  Each oracle field supplies exactly the value or failure the
corresponding call produces in the source. -/

/-- A server-sent event of the ingest stream. -/
inductive SseEvent where
  | progress (step : String) (message : String)
  | done (repo_id : String) (files : Nat) (chunks : Nat) (cached : Bool)
  | error (message : String)
deriving DecidableEq, Repr

/-- A graph-cache entry, as `_save_graph` persists it. -/
structure GraphCacheEntry where
  files : List String
  edges : List Edge
  root : String
  file_analyses : List (String × AnalysisRecord)
  onboarding_path : List StepOut
deriving Repr

/-- The outcomes of the external calls one run of the ingest generator
makes. -/
structure IngestEnv where
  /-- `repo_id_from_url(req.url)` (a fixed hash of the URL). -/
  rid : String
  /-- `req.force`. -/
  force : Bool
  /-- `_load_graph(rid)`; entries written before analysis existed have an
  empty `file_analyses` map, matching the falsy `cached.get("file_analyses")`. -/
  cached : Option GraphCacheEntry
  /-- `collection_has_data(rid)`. -/
  has_collection : Bool
  /-- `clone_repo(req.url)`: the local path, or the exception message. -/
  clone : Except String String
  /-- `walk_files(local_path)`. -/
  walk : String → List String
  /-- line reader used by `chunk_file(local_path, f)`. -/
  fileLines : String → String → Option (List String)
  /-- `store_chunks(repo_id, all_chunks)`: unit, or the exception message. -/
  store : Except String Unit
  /-- captured import specifiers per extension and content (regex oracle). -/
  matcher : String → String → List String
  /-- whole-file reader used by `extract_edges`. -/
  contentReader : String → String → Option String
  /-- outcome of the `analyze_repo_files` call (`Except` models the
  `try/except` that replaces a raising call by `{}`). -/
  analyses : Except Unit (List (String × AnalysisRecord))
  /-- outcome of the `generate_onboarding_path` call. -/
  pathing : Except Unit (List StepOut)

/-- Whether the cached entry short-circuits the pipeline:
`not req.force and cached and cached.get("file_analyses") and
collection_has_data(rid)`. -/
def ingestUsesCache (env : IngestEnv) : Bool :=
  !env.force &&
    (match env.cached with
     | some c => !c.file_analyses.isEmpty
     | none => false) &&
    env.has_collection

/-- The ingest generator of `main.py`: the emitted event stream and the
graph-cache entry written by `_save_graph` (`none` when no write happens). -/
def ingest (env : IngestEnv) : List SseEvent × Option (String × GraphCacheEntry) :=
  if ingestUsesCache env then
    ([.progress "pathing" "Using cached analysis",
      .done env.rid ((env.cached.map (fun c => c.files)).getD []).length 0 true],
     none)
  else
    let evs := [SseEvent.progress "cloning" "Cloning repository..."]
    match env.clone with
    | .error e => (evs ++ [.error ("Failed to clone repo: " ++ e)], none)
    | .ok local_path =>
      let evs := evs ++ [SseEvent.progress "scanning" "Scanning files..."]
      let files := env.walk local_path
      let all_chunks := files.flatMap (chunk_file_read (env.fileLines local_path))
      let evs := evs ++ [SseEvent.progress "scanning"
        ("Found " ++ natStr files.length ++ " files, " ++
          natStr all_chunks.length ++ " chunks")]
      let evs := evs ++ [SseEvent.progress "embedding" "Generating embeddings..."]
      match env.store with
      | .error e => (evs ++ [.error ("Embedding failed: " ++ e)], none)
      | .ok _ =>
        let evs := evs ++ [SseEvent.progress "graphing" "Mapping dependencies..."]
        let edges := extract_edges env.matcher (env.contentReader local_path) files
        let evs := evs ++ [SseEvent.progress "analyzing"
          "AI is analyzing files... this takes 30–60 seconds"]
        let file_analyses := match env.analyses with
          | .ok m => m
          | .error _ => []
        let evs := evs ++ [SseEvent.progress "pathing" "Generating onboarding path..."]
        let onboarding_path := match env.pathing with
          | .ok p => p
          | .error _ => []
        let entry : GraphCacheEntry :=
          { files := files, edges := edges, root := local_path,
            file_analyses := file_analyses, onboarding_path := onboarding_path }
        (evs ++ [.done env.rid files.length all_chunks.length false],
         some (env.rid, entry))

/-- Terminal events of the progress-stream protocol. -/
def isTerminalEvent : SseEvent → Bool
  | .done _ _ _ _ => true
  | .error _ => true
  | .progress _ _ => false

/-- Error events. -/
def isErrorEvent : SseEvent → Bool
  | .error _ => true
  | _ => false

/-! ## General lemmas -/

/-- Two lists with the same elements that are both sorted by a key under
which no two elements of the first collide are equal.  (This is the reason
the sort keys of the source need to separate the records for the
sorted-output to be order-independent.) -/
theorem eq_of_perm_of_sorted_key {α κ : Type} [LinearOrder κ] (key : α → κ) :
    ∀ {l₁ l₂ : List α}, l₁.Perm l₂ →
      l₁.Sorted (fun a b => key a ≤ key b) →
      l₂.Sorted (fun a b => key a ≤ key b) →
      (l₁.map key).Nodup → l₁ = l₂ := by
  intro l₁
  induction l₁ with
  | nil =>
    intro l₂ hp _ _ _
    exact (hp.nil_eq).symm ▸ rfl
  | cons a t₁ ih =>
    intro l₂ hp hs₁ hs₂ hnd
    match l₂ with
    | [] => exact absurd hp.symm.nil_eq (by simp)
    | b :: t₂ =>
      by_cases hab : a = b
      · subst hab
        have := ih (hp.cons_inv) hs₁.of_cons hs₂.of_cons
          (by simpa using (List.nodup_cons.mp (by simpa using hnd)).2)
        rw [this]
      · exfalso
        have ha₂ : a ∈ t₂ := by
          have : a ∈ b :: t₂ := hp.mem_iff.mp (List.mem_cons_self a t₁)
          exact (List.mem_cons.mp this).resolve_left hab
        have hb₁ : b ∈ t₁ := by
          have : b ∈ a :: t₁ := hp.symm.mem_iff.mp (List.mem_cons_self b t₂)
          exact (List.mem_cons.mp this).resolve_left (fun h => hab h.symm)
        have h₁ : key a ≤ key b := (List.sorted_cons.mp hs₁).1 b hb₁
        have h₂ : key b ≤ key a := (List.sorted_cons.mp hs₂).1 a ha₂
        have hk : key a = key b := le_antisymm h₁ h₂
        have : key a ∉ t₁.map key := (List.nodup_cons.mp (by simpa using hnd)).1
        exact this (hk ▸ List.mem_map_of_mem key hb₁)

/-- `String.mk` is injective (strings are their character lists). -/
theorem stringMk_inj {l₁ l₂ : List Char} (h : (⟨l₁⟩ : String) = ⟨l₂⟩) : l₁ = l₂ :=
  congrArg String.data h

/-! ## C10: `validate_deterministic` with fewer than two outputs -/

/-- C10.  For every tolerance value and every outputs list with fewer than
two elements (including the empty list), `validate_deterministic` returns
`(True, None)`: a single run is always reported as deterministic and no hash
is compared. -/
theorem validate_deterministic_single_run (outputs : List RagOutput)
    (tolerance : Int) (h : outputs.length < 2) :
    validate_deterministic outputs tolerance = (true, none) := by
  unfold validate_deterministic
  simp [h]

/-- Witness for C10: the empty outputs list with the default tolerance. -/
theorem validate_deterministic_single_run_witness :
    ([] : List RagOutput).length < 2 ∧
      validate_deterministic [] 0 = (true, none) :=
  ⟨by decide, validate_deterministic_single_run [] 0 (by decide)⟩

/-! ## C7: the ingest stream terminates in exactly one terminal event -/

/-- C7.  For every ingest run, the emitted event stream contains exactly one
terminal event (`done` or `error`), that event is the last of the stream,
and whenever the stream terminates with an `error` event (clone or embedding
failure) no graph-cache entry is written in that run. -/
theorem ingest_terminal_events (env : IngestEnv) :
    (ingest env).1.countP isTerminalEvent = 1 ∧
      (∃ e, (ingest env).1.getLast? = some e ∧ isTerminalEvent e = true) ∧
      (∀ e, (ingest env).1.getLast? = some e → isErrorEvent e = true →
        (ingest env).2 = none) := by
  unfold ingest
  by_cases hc : ingestUsesCache env
  · simp [hc, List.countP_cons, isTerminalEvent, isErrorEvent]
  · rcases hclone : env.clone with e | local_path
    · simp [hc, hclone, List.countP_cons, isTerminalEvent, isErrorEvent]
    · rcases hstore : env.store with e | u
      · simp [hc, hclone, hstore, List.countP_cons, List.countP_append,
          isTerminalEvent, isErrorEvent]
      · simp [hc, hclone, hstore, List.countP_cons, List.countP_append,
          isTerminalEvent, isErrorEvent]

/-- A run whose clone step fails. -/
def ingestEnvCloneFails : IngestEnv :=
  { rid := "0123abcd4567", force := false, cached := none,
    has_collection := false, clone := .error "boom",
    walk := fun _ => [], fileLines := fun _ _ => none, store := .ok (),
    matcher := fun _ _ => [], contentReader := fun _ _ => none,
    analyses := .error (), pathing := .error () }

/-- Witness for C7: a failing clone emits one terminal `error` event last,
and no cache entry is written. -/
theorem ingest_terminal_events_witness :
    (ingest ingestEnvCloneFails).1.countP isTerminalEvent = 1 ∧
      (ingest ingestEnvCloneFails).2 = none := by
  have h := ingest_terminal_events ingestEnvCloneFails
  exact ⟨h.1, h.2.2 (SseEvent.error "Failed to clone repo: boom")
    (by decide) (by decide)⟩

/-! ## C6: candidate order of `_resolve_relative_import` -/

/-- The full ordered candidate list the resolution routine tries: the
relative-path join of the (dot/slash-stripped) specifier onto the importing
file's directory with no suffix, then each source suffix, then the directory
index/`__init__` files; then the dotted-to-path translation with no suffix,
the language suffix and the package-init file. -/
def resolutionCandidates (source_file target0 : String) : List String :=
  let source_dir := pyDirname source_file
  let target := pyLstripDotSlash target0
  let dotted := pyReplaceDotBySlash target
  [pyNormpath (pyPathJoin source_dir target),
   pyNormpath (pyPathJoin source_dir (target ++ ".py")),
   pyNormpath (pyPathJoin source_dir (target ++ ".ts")),
   pyNormpath (pyPathJoin source_dir (target ++ ".tsx")),
   pyNormpath (pyPathJoin source_dir (target ++ ".js")),
   pyNormpath (pyPathJoin source_dir (target ++ ".jsx")),
   pyNormpath (pyPathJoin3 source_dir target "index.ts"),
   pyNormpath (pyPathJoin3 source_dir target "index.tsx"),
   pyNormpath (pyPathJoin3 source_dir target "index.js"),
   pyNormpath (pyPathJoin3 source_dir target "__init__.py"),
   pyNormpath (dotted ++ ""),
   pyNormpath (dotted ++ ".py"),
   pyNormpath (dotted ++ "/__init__.py")]

/-- C6.  The resolution routine returns the first candidate of the ordered
candidate list that is present in the known file set, and `none` (the
specifier is dropped) when no candidate is present. -/
theorem resolve_relative_import_first_candidate (source_file target0 : String)
    (all_files : List String) :
    _resolve_relative_import source_file target0 all_files =
      (resolutionCandidates source_file target0).find?
        (fun c => all_files.contains c) := by
  unfold _resolve_relative_import resolutionCandidates
  rcases h : List.find? (fun c => all_files.contains c)
      [pyNormpath (pyPathJoin (pyDirname source_file) (pyLstripDotSlash target0)),
       pyNormpath (pyPathJoin (pyDirname source_file) (pyLstripDotSlash target0 ++ ".py")),
       pyNormpath (pyPathJoin (pyDirname source_file) (pyLstripDotSlash target0 ++ ".ts")),
       pyNormpath (pyPathJoin (pyDirname source_file) (pyLstripDotSlash target0 ++ ".tsx")),
       pyNormpath (pyPathJoin (pyDirname source_file) (pyLstripDotSlash target0 ++ ".js")),
       pyNormpath (pyPathJoin (pyDirname source_file) (pyLstripDotSlash target0 ++ ".jsx")),
       pyNormpath (pyPathJoin3 (pyDirname source_file) (pyLstripDotSlash target0) "index.ts"),
       pyNormpath (pyPathJoin3 (pyDirname source_file) (pyLstripDotSlash target0) "index.tsx"),
       pyNormpath (pyPathJoin3 (pyDirname source_file) (pyLstripDotSlash target0) "index.js"),
       pyNormpath (pyPathJoin3 (pyDirname source_file) (pyLstripDotSlash target0) "__init__.py")]
    with c | c
  · simp only [List.find?_cons] at h ⊢
    repeat' split at h
    all_goals simp_all [List.find?, List.map]
  · simp only [List.find?_cons] at h ⊢
    repeat' split at h
    all_goals simp_all [List.find?, List.map]

/-! ## C4: chunk counts of `chunk_file` -/

/-- A joined text is non-blank as soon as one of its parts is. -/
theorem pyStripTruthy_pyJoin_of_mem {parts : List String} {l : String}
    (hl : l ∈ parts) (h : pyStripTruthy l = true) :
    pyStripTruthy (pyJoin parts) = true := by
  unfold pyStripTruthy pyJoin at *
  rw [List.any_eq_true] at h ⊢
  obtain ⟨c, hc, hcw⟩ := h
  refine ⟨c, ?_, hcw⟩
  simp only [String.data]
  rw [List.mem_flatten]
  exact ⟨l.data, List.mem_map_of_mem String.data hl, hc⟩

/-- Every window the chunk loop takes while `start < lines.length` contains
at least its first line, which is a line of the file. -/
theorem chunk_window_has_line (lines : List String) (start k : Nat)
    (hs : start < lines.length) (hk : 1 ≤ k) :
    ∃ l, l ∈ (lines.drop start).take k ∧ l ∈ lines := by
  have hne : lines.drop start ≠ [] := by
    intro h
    have := List.drop_eq_nil_iff.mp h
    omega
  match hd : lines.drop start with
  | [] => exact absurd hd hne
  | l :: rest =>
    refine ⟨l, ?_, ?_⟩
    · match k, hk with
      | k + 1, _ => simp
    · exact List.drop_subset start lines (hd ▸ List.mem_cons_self l rest)

/-- Counting lemma for the chunk loop: when no line of the file is blank,
every window emits a chunk, so the loop starting at `start` with enough fuel
emits `⌈(L - start) / 70⌉` chunks. -/
theorem chunkLoop_length (rel : String) (lines : List String)
    (hnb : ∀ l ∈ lines, pyStripTruthy l = true) :
    ∀ fuel start, lines.length ≤ start + 70 * fuel →
      (chunkLoop rel lines fuel start).length =
        (lines.length - start + 69) / 70 := by
  intro fuel
  induction fuel with
  | zero =>
    intro start h
    simp only [chunkLoop, List.length_nil]
    omega
  | succ fuel ih =>
    intro start h
    by_cases hs : start < lines.length
    · have hw : ∃ l, l ∈ (lines.drop start).take
          (min (start + CHUNK_SIZE) lines.length - start) ∧ l ∈ lines := by
        apply chunk_window_has_line lines start _ hs
        simp only [CHUNK_SIZE]
        omega
      obtain ⟨l, hlw, hlf⟩ := hw
      have htx : pyStripTruthy (pyJoin ((lines.drop start).take
          (min (start + CHUNK_SIZE) lines.length - start))) = true :=
        pyStripTruthy_pyJoin_of_mem hlw (hnb l hlf)
      have hrec := ih (start + (CHUNK_SIZE - CHUNK_OVERLAP))
        (by simp only [CHUNK_SIZE, CHUNK_OVERLAP]; omega)
      simp only [chunkLoop, hs, if_true, htx, List.length_cons]
      rw [hrec]
      simp only [CHUNK_SIZE, CHUNK_OVERLAP]
      omega
    · simp only [chunkLoop, hs, if_false, List.length_nil]
      omega

/-- C4 (amended).  For a file of `L` lines none of which is blank,
`chunk_file` returns exactly `⌈L / 70⌉` chunks — one per window the loop
starts, since a window of non-blank lines is never dropped — and re-chunking
identical content yields identical output.  (The claimed count
`⌈max(L - 10, 0) / 70⌉` agrees with `⌈L / 70⌉` unless `L mod 70 ∈ [1, 10]`,
where it undercounts; see the counterexample.) -/
theorem chunk_file_count (rel : String) (lines : List String)
    (hnb : ∀ l ∈ lines, pyStripTruthy l = true) :
    (chunk_file rel lines).length = (lines.length + 69) / 70 ∧
      (∀ lines2, lines2 = lines → chunk_file rel lines2 = chunk_file rel lines) := by
  constructor
  · unfold chunk_file
    have h := chunkLoop_length rel lines hnb lines.length 0 (by omega)
    simpa using h
  · intro lines2 h
    rw [h]

/-- Witness for C4: the spec's own example, a 100-line file with window 80
and overlap 10, yields exactly the two chunks `[1, 80]` and `[71, 100]`. -/
theorem chunk_file_count_witness :
    (∀ l ∈ List.replicate 100 "x\n", pyStripTruthy l = true) ∧
      (chunk_file "app.py" (List.replicate 100 "x\n")).length = 2 ∧
      (chunk_file "app.py" (List.replicate 100 "x\n")).map
        (fun c => (c.start_line, c.end_line)) = [(1, 80), (71, 100)] := by
  refine ⟨by decide, ?_, by decide⟩
  have h := chunk_file_count "app.py" (List.replicate 100 "x\n") (by decide)
  simpa using h.1

/-- Counterexample to C4 as stated: a one-line non-blank file yields one
chunk, but the claimed formula `⌈max(L - 10, 0) / 70⌉` evaluates to 0 at
`L = 1`. -/
theorem chunk_file_claimed_count_false :
    ¬ ((chunk_file "app.py" ["print(1)\n"]).length =
        Int.toNat ((max (((["print(1)\n"] : List String).length : Int) - 10) 0 + 69) / 70)) := by
  decide

/-! ## C1: default records of `analyze_repo_files` -/

/-- Lookup after a dict insertion. -/
theorem pyDictGet_insert {α : Type} (d : List (String × α)) (k : String) (v : α)
    (r : String) :
    pyDictGet (pyDictInsert d k v) r = if r = k then some v else pyDictGet d r := by
  induction d with
  | nil =>
    by_cases h : r = k
    · subst h
      simp [pyDictInsert, pyDictGet, List.find?]
    · simp [pyDictInsert, pyDictGet, List.find?, h, Ne.symm h]
  | cons p t ih =>
    obtain ⟨k', v'⟩ := p
    by_cases hk : k' = k
    · subst hk
      by_cases hr : r = k'
      · subst hr
        simp [pyDictInsert, pyDictGet, List.find?]
      · simp [pyDictInsert, pyDictGet, List.find?, hr, Ne.symm hr]
    · by_cases hr : r = k'
      · subst hr
        simp [pyDictInsert, pyDictGet, List.find?, hk]
      · simp only [pyDictInsert, if_neg hk]
        have h1 : pyDictGet ((k', v') :: pyDictInsert t k v) r =
            pyDictGet (pyDictInsert t k v) r := by
          simp [pyDictGet, List.find?, Ne.symm hr]
        have h2 : pyDictGet ((k', v') :: t) r = pyDictGet t r := by
          simp [pyDictGet, List.find?, Ne.symm hr]
        rw [h1, ih, h2]

/-- Lookup after inserting the same value for every key of a batch. -/
theorem pyDictGet_insert_defaults {α : Type} (v : α) (rel : String) :
    ∀ (batch : List (String × String)) (d : List (String × α)),
      pyDictGet (batch.foldl (fun r p => pyDictInsert r p.1 v) d) rel =
        if batch.any (fun p => p.1 = rel) then some v else pyDictGet d rel := by
  intro batch
  induction batch with
  | nil => intro d; simp
  | cons p t ih =>
    intro d
    simp only [List.foldl_cons, List.any_cons]
    rw [ih, pyDictGet_insert]
    by_cases hp : p.1 = rel
    · simp [hp]
    · by_cases ht : (t.any fun q => decide (q.1 = rel)) = true
      · simp [hp, ht]
      · simp [hp, Ne.symm hp, ht]

/-- `d.update(kvs)` does not change the value of a key that `kvs` does not
mention. -/
theorem pyDictGet_update_of_not_mem {α : Type} (rel : String) :
    ∀ (kvs : List (String × α)) (d : List (String × α)),
      (∀ p ∈ kvs, p.1 ≠ rel) →
      pyDictGet (pyDictUpdate d kvs) rel = pyDictGet d rel := by
  intro kvs
  induction kvs with
  | nil => intro d _; rfl
  | cons p t ih =>
    intro d hmem
    simp only [pyDictUpdate, List.foldl_cons]
    rw [show (t.foldl (fun acc p => pyDictInsert acc p.1 p.2)
        (pyDictInsert d p.1 p.2)) = pyDictUpdate (pyDictInsert d p.1 p.2) t from rfl]
    rw [ih _ (fun q hq => hmem q (List.mem_cons_of_mem p hq)), pyDictGet_insert]
    simp [show ¬(rel = p.1) from fun h => hmem p (List.mem_cons_self p t) h.symm]

/-- Invariant of the batch loop of `analyze_repo_files`: once a key holds
the default record — or some failed batch still to come mentions it — and no
successfully parsed response mentions it, the final map sends it to the
default record. -/
theorem analyzeFold_default
    (llm : List (String × String) → Option (List (String × AnalysisRecord)))
    (rel : String) :
    ∀ (bs : List (List (String × String))) (d : List (String × AnalysisRecord)),
      (pyDictGet d rel = some defaultAnalysisRecord ∨
        ∃ b ∈ bs, llm b = none ∧ b.any (fun p => p.1 = rel)) →
      (∀ b ∈ bs, ∀ parsed, llm b = some parsed → ∀ p ∈ parsed, p.1 ≠ rel) →
      pyDictGet
        (bs.foldl
          (fun results batch =>
            match llm batch with
            | some parsed => pyDictUpdate results parsed
            | none =>
              batch.foldl (fun r p => pyDictInsert r p.1 defaultAnalysisRecord)
                results)
          d) rel = some defaultAnalysisRecord := by
  intro bs
  induction bs with
  | nil =>
    intro d hgood _
    rcases hgood with h | ⟨b, hb, _⟩
    · simpa using h
    · exact absurd hb (List.not_mem_nil b)
  | cons b bs ih =>
    intro d hgood hns
    simp only [List.foldl_cons]
    rcases hllm : llm b with _ | parsed
    · -- the response of this batch fails to parse: its keys get the default
      apply ih
      · rcases hgood with h | ⟨b0, hb0, hfail, hkey⟩
        · left
          rw [pyDictGet_insert_defaults]
          split <;> simp [h]
        · rcases List.mem_cons.mp hb0 with rfl | htail
          · left
            rw [pyDictGet_insert_defaults, if_pos hkey]
          · right
            exact ⟨b0, htail, hfail, hkey⟩
      · exact fun b' hb' => hns b' (List.mem_cons_of_mem b hb')
    · -- the response parses: by assumption it does not mention `rel`
      apply ih
      · rcases hgood with h | ⟨b0, hb0, hfail, hkey⟩
        · left
          rw [pyDictGet_update_of_not_mem rel parsed d (hns b (List.mem_cons_self b bs) parsed hllm)]
          exact h
        · rcases List.mem_cons.mp hb0 with rfl | htail
          · rw [hllm] at hfail
            exact absurd hfail (by simp)
          · right
            exact ⟨b0, htail, hfail, hkey⟩
      · exact fun b' hb' => hns b' (List.mem_cons_of_mem b hb')

/-- C1 (amended).  Every requested file that survives the content-reading
step (readable, non-blank within the first 150 lines) and whose batch's
language-model response fails to parse — and which no successfully parsed
response names — is mapped to the default record with importance score 3,
summary "Analysis unavailable.", empty responsibilities, empty key exports
and empty onboarding reason.  (Total coverage of the requested list does not
hold: see the counterexample for a blank file that receives no record.) -/
theorem analyze_repo_files_failed_batch_default
    (reader : String → Option (List String))
    (llm : List (String × String) → Option (List (String × AnalysisRecord)))
    (files : List String) (rel : String)
    (hfail : ∃ b ∈ pyBatches ANALYSIS_BATCH_SIZE (analysisFileContents reader files),
      llm b = none ∧ b.any (fun p => p.1 = rel))
    (hns : ∀ b ∈ pyBatches ANALYSIS_BATCH_SIZE (analysisFileContents reader files),
      ∀ parsed, llm b = some parsed → ∀ p ∈ parsed, p.1 ≠ rel) :
    pyDictGet (analyze_repo_files reader llm files) rel =
      some { importance_score := 3, summary := "Analysis unavailable.",
             responsibilities := [], key_exports := [], onboarding_reason := "" } := by
  unfold analyze_repo_files
  exact analyzeFold_default llm rel _ [] (Or.inr hfail) hns

/-- A reader oracle for the C1 witness: every file holds one line of code. -/
def analyzeReaderW : String → Option (List String) := fun _ => some ["code\n"]

/-- A language-model oracle whose every batch response fails to parse. -/
def analyzeLlmW : List (String × String) → Option (List (String × AnalysisRecord)) :=
  fun _ => none

/-- Witness for C1: the spec's example, two files `[x.py, y.py]` whose batch
response is unparseable, both of which receive the default record. -/
theorem analyze_repo_files_failed_batch_default_witness :
    pyDictGet (analyze_repo_files analyzeReaderW analyzeLlmW ["x.py", "y.py"])
        "x.py" = some defaultAnalysisRecord ∧
      pyDictGet (analyze_repo_files analyzeReaderW analyzeLlmW ["x.py", "y.py"])
        "y.py" = some defaultAnalysisRecord :=
  ⟨analyze_repo_files_failed_batch_default analyzeReaderW analyzeLlmW
      ["x.py", "y.py"] "x.py" (by decide) (by decide),
    analyze_repo_files_failed_batch_default analyzeReaderW analyzeLlmW
      ["x.py", "y.py"] "y.py" (by decide) (by decide)⟩

/-- Counterexample to C1 as stated: a requested file whose content is blank
is skipped before batching and has no record in the returned map, so not
every file of the requested list receives a record. -/
theorem analyze_repo_files_blank_file_no_record :
    pyDictGet
      (analyze_repo_files (fun _ => some ["   \n"]) (fun _ => none) ["a.py"])
      "a.py" = none := by
  decide

/-! ## C9: shape of `generate_onboarding_path` -/

/-- Enrichment never changes the file of a step. -/
theorem enrichStep_file (fa : List (String × AnalysisRecord)) (st : StepIn) :
    (enrichStep fa st).file = st.file.getD "" := by
  rcases h : pyDictGet fa (st.file.getD "") with _ | a <;> simp [enrichStep, h]

/-- C9.  Every step returned by `generate_onboarding_path` is a record with
exactly the fields `file`, `summary`, `reason`, `importance_score`,
`responsibilities` and `key_exports` (the `StepOut` type mirrors the literal
dict the source constructs); the output has the same length and file order
as the parsed (or fallback) path; and a step whose file is absent from the
analyses map is kept, with empty summary, score 0 and empty lists, rather
than dropped. -/
theorem generate_onboarding_path_shape
    (llm : List (String × AnalysisRecord) → List Edge → Option (List StepIn))
    (file_analyses : List (String × AnalysisRecord)) (edges : List Edge) :
    (generate_onboarding_path llm file_analyses edges).length =
        (onboardingRawPath llm file_analyses edges).length ∧
      (generate_onboarding_path llm file_analyses edges).map (fun s => s.file) =
        (onboardingRawPath llm file_analyses edges).map (fun st => st.file.getD "") ∧
      (∀ s ∈ generate_onboarding_path llm file_analyses edges,
        pyDictGet file_analyses s.file = none →
          s.summary = "" ∧ s.importance_score = 0 ∧
            s.responsibilities = [] ∧ s.key_exports = []) := by
  refine ⟨?_, ?_, ?_⟩
  · simp [generate_onboarding_path]
  · unfold generate_onboarding_path
    rw [List.map_map]
    exact List.map_congr_left (fun st _ => enrichStep_file file_analyses st)
  · intro s hs hget
    obtain ⟨st, hst, rfl⟩ := List.mem_map.mp hs
    rw [enrichStep_file] at hget
    simp [enrichStep, hget]

/-- An onboarding-path oracle for the C9 witness: the parsed response names
a file that is absent from the analyses map. -/
def onboardLlmW : List (String × AnalysisRecord) → List Edge → Option (List StepIn) :=
  fun _ _ => some [{ file := some "ghost.py", reason := some "start here" }]

/-- Witness for C9: a parsed step whose file is not in the analyses map is
kept with the default field values. -/
theorem generate_onboarding_path_shape_witness :
    ∃ s ∈ generate_onboarding_path onboardLlmW
        [("a.py", defaultAnalysisRecord)] [],
      s.summary = "" ∧ s.importance_score = 0 ∧
        s.responsibilities = [] ∧ s.key_exports = [] := by
  have h := generate_onboarding_path_shape onboardLlmW
    [("a.py", defaultAnalysisRecord)] []
  exact ⟨{ file := "ghost.py", summary := "", reason := "start here",
           importance_score := 0, responsibilities := [], key_exports := [] },
    by decide, h.2.2 _ (by decide) (by decide)⟩

/-! ## C5: invariants of `extract_edges` -/

/-- The `(source, target)` pair of an edge. -/
def edgePair (e : Edge) : String × String := (e.source, e.target)

/-- A resolved import target is always a member of the known file set (both
candidate loops only return elements found in it). -/
theorem resolve_mem_of_some {src t : String} {fs : List String} {c : String}
    (h : _resolve_relative_import src t fs = some c) : c ∈ fs := by
  unfold _resolve_relative_import at h
  rcases hf : List.find? (fun c => fs.contains c)
      [pyNormpath (pyPathJoin (pyDirname src) (pyLstripDotSlash t)),
       pyNormpath (pyPathJoin (pyDirname src) (pyLstripDotSlash t ++ ".py")),
       pyNormpath (pyPathJoin (pyDirname src) (pyLstripDotSlash t ++ ".ts")),
       pyNormpath (pyPathJoin (pyDirname src) (pyLstripDotSlash t ++ ".tsx")),
       pyNormpath (pyPathJoin (pyDirname src) (pyLstripDotSlash t ++ ".js")),
       pyNormpath (pyPathJoin (pyDirname src) (pyLstripDotSlash t ++ ".jsx")),
       pyNormpath (pyPathJoin3 (pyDirname src) (pyLstripDotSlash t) "index.ts"),
       pyNormpath (pyPathJoin3 (pyDirname src) (pyLstripDotSlash t) "index.tsx"),
       pyNormpath (pyPathJoin3 (pyDirname src) (pyLstripDotSlash t) "index.js"),
       pyNormpath (pyPathJoin3 (pyDirname src) (pyLstripDotSlash t) "__init__.py")]
    with _ | c'
  · simp only [hf] at h
    have := List.find?_some h
    simpa using this
  · simp only [hf] at h
    have hc : c' = c := by simpa using h
    subst hc
    have := List.find?_some hf
    simpa using this

/-- The invariant the edge-collection loops maintain: the collected edges
have pairwise-distinct `(source, target)` pairs, every edge is a non-self
edge into the file set, and every collected pair is recorded in `seen`. -/
def EdgeAccInv (files : List String)
    (acc : List (String × String) × List Edge) : Prop :=
  (acc.2.map edgePair).Nodup ∧
    (∀ e ∈ acc.2, e.source ≠ e.target ∧ e.target ∈ files) ∧
    (∀ e ∈ acc.2, edgePair e ∈ acc.1)

/-- The per-file target loop preserves the invariant. -/
theorem extractEdgesTargets_inv (files : List String) (rel : String) :
    ∀ (ts : List String) (acc : List (String × String) × List Edge),
      EdgeAccInv files acc →
      EdgeAccInv files (extractEdgesTargets files rel ts acc) := by
  intro ts
  induction ts with
  | nil => intro acc h; exact h
  | cons t ts ih =>
    intro acc h
    simp only [extractEdgesTargets]
    apply ih
    rcases hres : _resolve_relative_import rel t files with _ | resolved
    · exact h
    · show EdgeAccInv files
        (if resolved ≠ rel ∧ ¬acc.1.contains (rel, resolved) = true then
          (acc.1 ++ [(rel, resolved)],
            acc.2 ++ [({ source := rel, target := resolved } : Edge)])
        else acc)
      by_cases hcond : resolved ≠ rel ∧ ¬acc.1.contains (rel, resolved) = true
      · rw [if_pos hcond]
        obtain ⟨hnodup, hP, hseen⟩ := h
        have hnotmem : (rel, resolved) ∉ acc.2.map edgePair := by
          intro hmem
          obtain ⟨e, he, hpe⟩ := List.mem_map.mp hmem
          have : edgePair e ∈ acc.1 := hseen e he
          rw [hpe] at this
          exact hcond.2 (by simpa using this)
        refine ⟨?_, ?_, ?_⟩
        · rw [List.map_append, List.nodup_append]
          refine ⟨hnodup, by simp [edgePair], ?_⟩
          intro x hx hxs
          simp only [List.map_cons, List.map_nil, List.mem_singleton,
            edgePair] at hxs
          exact hnotmem (hxs ▸ hx)
        · intro e he
          rcases List.mem_append.mp he with h1 | h2
          · exact hP e h1
          · have : e = ⟨rel, resolved⟩ := by simpa using h2
            subst this
            exact ⟨fun hh => hcond.1 hh.symm, resolve_mem_of_some hres⟩
        · intro e he
          rcases List.mem_append.mp he with h1 | h2
          · exact List.mem_append.mpr (Or.inl (hseen e h1))
          · have : e = ⟨rel, resolved⟩ := by simpa using h2
            subst this
            exact List.mem_append.mpr (Or.inr (by simp [edgePair]))
      · rw [if_neg hcond]
        exact h

/-- The outer file loop preserves the invariant. -/
theorem extractEdgesFold_inv (matcher : String → String → List String)
    (reader : String → Option String) (files : List String) :
    ∀ (fs : List String) (acc : List (String × String) × List Edge),
      EdgeAccInv files acc →
      EdgeAccInv files
        (fs.foldl
          (fun acc rel =>
            if importPatternExts.contains (pySuffixExt rel) then
              match reader rel with
              | some content =>
                extractEdgesTargets files rel (matcher (pySuffixExt rel) content) acc
              | none => acc
            else acc)
          acc) := by
  intro fs
  induction fs with
  | nil => intro acc h; exact h
  | cons rel fs ih =>
    intro acc h
    simp only [List.foldl_cons]
    apply ih
    by_cases hext : (importPatternExts.contains (pySuffixExt rel)) = true
    · rw [if_pos hext]
      rcases reader rel with _ | content
      · exact h
      · exact extractEdgesTargets_inv files rel _ acc h
    · rw [if_neg hext]
      exact h

/-- C5.  Every edge returned by `extract_edges` has `source ≠ target` and a
target inside the supplied file list, and no `(source, target)` pair occurs
more than once in the returned list. -/
theorem extract_edges_invariants (matcher : String → String → List String)
    (reader : String → Option String) (files : List String) :
    ((extract_edges matcher reader files).map edgePair).Nodup ∧
      ∀ e ∈ extract_edges matcher reader files,
        e.source ≠ e.target ∧ e.target ∈ files := by
  have h := extractEdgesFold_inv matcher reader files files ([], [])
    ⟨by simp, by simp, by simp⟩
  exact ⟨h.1, h.2.1⟩

/-- Witness for C5: in a two-file repository whose imports resolve (and
repeat), the collected edge is a non-self edge into the file set. -/
theorem extract_edges_invariants_witness :
    (⟨"a.py", "b.py"⟩ : Edge) ∈ extract_edges (fun _ _ => ["b", "b"])
        (fun _ => some "import b\nimport b\n") ["a.py", "b.py"] ∧
      "a.py" ≠ "b.py" ∧ "b.py" ∈ ["a.py", "b.py"] := by
  refine ⟨by decide, ?_⟩
  exact (extract_edges_invariants (fun _ _ => ["b", "b"])
    (fun _ => some "import b\nimport b\n") ["a.py", "b.py"]).2
    ⟨"a.py", "b.py"⟩ (by decide)

/-! ## C2: deterministic order of `query_chunks` -/

/-- C2.  The list `query_chunks` returns is sorted ascending by
`(rounded distance, file, start_line, end_line)`; no returned element still
carries a distance; and any two calls whose underlying match sets agree
after rounding the distances to six fractional digits — regardless of the
order the capability returns them in — produce identical output, provided
the matches are separated by their `(file, start_line, end_line)` metadata
(which holds for any vector store populated by `store_chunks`, since chunk
metadata triples are pairwise distinct, and hence the full sort keys are
pairwise distinct). -/
theorem query_chunks_deterministic_order (A : List RetrievedMatch) :
    (rankedSorted A).Sorted rankLe ∧
      (∀ c ∈ query_chunks A, c.distance = none) ∧
      (∀ B : List RetrievedMatch, (rankedPool A).Perm (rankedPool B) →
        ((rankedPool A).map rankKey).Nodup →
        query_chunks A = query_chunks B) := by
  refine ⟨List.sorted_insertionSort rankLe (rankedPool A), ?_, ?_⟩
  · intro c hc
    obtain ⟨x, _, rfl⟩ := List.mem_map.mp hc
    rfl
  · intro B hperm hnd
    have hpA : (rankedSorted A).Perm (rankedPool A) := List.perm_insertionSort rankLe _
    have hpB : (rankedSorted B).Perm (rankedPool B) := List.perm_insertionSort rankLe _
    have hchain : (rankedSorted A).Perm (rankedSorted B) :=
      ((hpA.trans hperm).trans hpB.symm)
    have hndA : ((rankedSorted A).map rankKey).Nodup :=
      ((hpA.map rankKey).nodup_iff).mpr hnd
    have heq : rankedSorted A = rankedSorted B :=
      eq_of_perm_of_sorted_key rankKey hchain
        (List.sorted_insertionSort rankLe (rankedPool A))
        (List.sorted_insertionSort rankLe (rankedPool B)) hndA
    unfold query_chunks
    rw [heq]

/-- Matches for the C2 witness, in one order.  The second distance is
`3.0000004`, which rounds to `3.000000`. -/
def qcMatchesA : List RetrievedMatch :=
  [{ text := "tb", file := "b.py", start_line := 1, end_line := 80, dist := 3 },
   { text := "ta", file := "a.py", start_line := 71, end_line := 100,
     dist := ⟨7500001, 2500000, by decide, by decide⟩ }]

/-- The same matches in the other order, the second distance now
`3.0000001`: it differs from `3.0000004` only below the rounding threshold. -/
def qcMatchesB : List RetrievedMatch :=
  [{ text := "ta", file := "a.py", start_line := 71, end_line := 100,
     dist := ⟨30000001, 10000000, by decide, by decide⟩ },
   { text := "tb", file := "b.py", start_line := 1, end_line := 80, dist := 3 }]

/-- Witness for C2: the two calls agree after rounding and produce identical
distance-free output. -/
theorem query_chunks_deterministic_order_witness :
    (rankedPool qcMatchesA).Perm (rankedPool qcMatchesB) ∧
      ((rankedPool qcMatchesA).map rankKey).Nodup ∧
      query_chunks qcMatchesA = query_chunks qcMatchesB ∧
      (∀ c ∈ query_chunks qcMatchesA, c.distance = none) := by
  refine ⟨by decide, by decide, ?_, ?_⟩
  · exact (query_chunks_deterministic_order qcMatchesA).2.2 qcMatchesB
      (by decide) (by decide)
  · exact (query_chunks_deterministic_order qcMatchesA).2.1

/-! ## C3: normalization invariance of `hash_output`

The serialization is injective in the answer: `json.dumps` string escaping
is decodable, so two different answers always serialize differently.  The
decoder below reads back one code point from the head of an escaped stream;
it is only used inside proofs. -/

/-- Value of a lower-case hexadecimal digit character. -/
def hexVal (c : Char) : Nat :=
  if c.toNat ≤ 57 then c.toNat - 48 else c.toNat - 87

theorem hexVal_hexDig {d : Nat} (h : d < 16) : hexVal (hexDig d) = d := by
  interval_cases d <;> decide

theorem hex4_eval (m : Nat) (hm : m < 65536) :
    hexVal (hexDig (m / 4096 % 16)) * 4096 + hexVal (hexDig (m / 256 % 16)) * 256 +
      hexVal (hexDig (m / 16 % 16)) * 16 + hexVal (hexDig (m % 16)) = m := by
  rw [hexVal_hexDig (Nat.mod_lt _ (by norm_num)),
    hexVal_hexDig (Nat.mod_lt _ (by norm_num)),
    hexVal_hexDig (Nat.mod_lt _ (by norm_num)),
    hexVal_hexDig (Nat.mod_lt _ (by norm_num))]
  omega

/-- Decode the code point encoded at the head of a `json.dumps`-escaped
stream (proof tool; its value on ill-formed streams is irrelevant). -/
def decodeEsc : List Char → Option (Nat × List Char)
  | [] => none
  | c :: rest =>
    if c = '\\' then
      match rest with
      | 'u' :: h1 :: h2 :: h3 :: h4 :: rest2 =>
        let m := hexVal h1 * 4096 + hexVal h2 * 256 + hexVal h3 * 16 + hexVal h4
        if 0xd800 ≤ m ∧ m < 0xdc00 then
          match rest2 with
          | '\\' :: 'u' :: l1 :: l2 :: l3 :: l4 :: rest4 =>
            some (0x10000 + (m - 0xd800) * 1024 +
              (hexVal l1 * 4096 + hexVal l2 * 256 + hexVal l3 * 16 + hexVal l4
                - 0xdc00), rest4)
          | _ => none
        else some (m, rest2)
      | '"' :: rest2 => some (34, rest2)
      | '\\' :: rest2 => some (92, rest2)
      | 'b' :: rest2 => some (8, rest2)
      | 't' :: rest2 => some (9, rest2)
      | 'n' :: rest2 => some (10, rest2)
      | 'f' :: rest2 => some (12, rest2)
      | 'r' :: rest2 => some (13, rest2)
      | _ => none
    else some (c.toNat, rest)

/-- Characters are never surrogate code points. -/
theorem char_not_surrogate (c : Char) :
    c.toNat < 0xd800 ∨ 0xdfff < c.toNat := by
  rcases c.valid with h | ⟨h1, _⟩
  · exact Or.inl h
  · exact Or.inr h1

/-- Characters are code points below `0x110000`. -/
theorem char_lt_110000 (c : Char) : c.toNat < 0x110000 := by
  rcases c.valid with h | ⟨_, h2⟩
  · exact lt_trans h (by norm_num)
  · exact h2

/-- `Char.toNat` is injective. -/
theorem charToNat_inj {c1 c2 : Char} (h : c1.toNat = c2.toNat) : c1 = c2 :=
  Char.ext (UInt32.ext h)

/-- The decoder recovers the escaped character and the rest of the stream. -/
theorem decodeEsc_escapeChar (c : Char) (r : List Char) :
    decodeEsc (jsonEscapeChar c ++ r) = some (c.toNat, r) := by
  by_cases h1 : c = '"'
  · subst h1; rfl
  by_cases h2 : c = '\\'
  · subst h2; rfl
  by_cases h3 : c = '\x08'
  · subst h3; rfl
  by_cases h4 : c = '\t'
  · subst h4; rfl
  by_cases h5 : c = '\n'
  · subst h5; rfl
  by_cases h6 : c = '\x0c'
  · subst h6; rfl
  by_cases h7 : c = '\r'
  · subst h7; rfl
  by_cases h8 : 0x20 ≤ c.toNat ∧ c.toNat ≤ 0x7e
  · have hesc : jsonEscapeChar c = [c] := by
      simp only [jsonEscapeChar, if_neg h1, if_neg h2, if_neg h3, if_neg h4,
        if_neg h5, if_neg h6, if_neg h7, if_pos h8]
    rw [hesc]
    simp [decodeEsc, h2]
  by_cases h9 : c.toNat < 0x10000
  · have hesc : jsonEscapeChar c = '\\' :: 'u' :: hex4 c.toNat := by
      simp only [jsonEscapeChar, if_neg h1, if_neg h2, if_neg h3, if_neg h4,
        if_neg h5, if_neg h6, if_neg h7, if_neg h8, if_pos h9]
    rw [hesc]
    simp only [hex4, List.cons_append, List.nil_append]
    simp only [decodeEsc, eq_self_iff_true, if_true]
    rw [hex4_eval c.toNat h9]
    rcases char_not_surrogate c with hs | hs
    · rw [if_neg (by omega)]
    · rw [if_neg (by omega)]
  · have hesc : jsonEscapeChar c =
        ('\\' :: 'u' :: hex4 (0xd800 + (c.toNat - 0x10000) / 0x400)) ++
          ('\\' :: 'u' :: hex4 (0xdc00 + (c.toNat - 0x10000) % 0x400)) := by
      simp only [jsonEscapeChar, if_neg h1, if_neg h2, if_neg h3, if_neg h4,
        if_neg h5, if_neg h6, if_neg h7, if_neg h8, if_neg h9]
    rw [hesc]
    have hlt := char_lt_110000 c
    have hge : 0x10000 ≤ c.toNat := by omega
    have hhi : 0xd800 + (c.toNat - 0x10000) / 0x400 < 65536 := by omega
    have hlo : 0xdc00 + (c.toNat - 0x10000) % 0x400 < 65536 := by
      have := Nat.mod_lt (c.toNat - 0x10000) (show 0 < 0x400 by norm_num)
      omega
    simp only [hex4, List.cons_append, List.nil_append, List.append_assoc]
    simp only [decodeEsc, eq_self_iff_true, if_true]
    rw [hex4_eval _ hhi, hex4_eval _ hlo]
    rw [if_pos (by omega)]
    have : 0x10000 + (0xd800 + (c.toNat - 0x10000) / 0x400 - 0xd800) * 0x400 +
        (0xdc00 + (c.toNat - 0x10000) % 0x400 - 0xdc00) = c.toNat := by omega
    rw [this]

/-- One escaped character is never the empty stream. -/
theorem jsonEscapeChar_ne_nil (c : Char) : jsonEscapeChar c ≠ [] := by
  intro h
  have h2 := decodeEsc_escapeChar c []
  rw [h, List.nil_append] at h2
  simp [decodeEsc] at h2

/-- Escaping is injective even in front of a common tail. -/
theorem jsonEscape_append_right_inj :
    ∀ (l1 l2 u : List Char), jsonEscape l1 ++ u = jsonEscape l2 ++ u → l1 = l2 := by
  intro l1
  induction l1 with
  | nil =>
    intro l2 u h
    match l2 with
    | [] => rfl
    | c2 :: t2 =>
      exfalso
      simp only [jsonEscape, List.nil_append, List.append_assoc] at h
      have hlen := congrArg List.length h
      simp only [List.length_append] at hlen
      have hne := jsonEscapeChar_ne_nil c2
      have hpos : 0 < (jsonEscapeChar c2).length := List.length_pos.mpr hne
      omega
  | cons c1 t1 ih =>
    intro l2 u h
    match l2 with
    | [] =>
      exfalso
      simp only [jsonEscape, List.nil_append, List.append_assoc] at h
      have hlen := congrArg List.length h
      simp only [List.length_append] at hlen
      have hne := jsonEscapeChar_ne_nil c1
      have hpos : 0 < (jsonEscapeChar c1).length := List.length_pos.mpr hne
      omega
    | c2 :: t2 =>
      simp only [jsonEscape, List.append_assoc] at h
      have d1 := decodeEsc_escapeChar c1 (jsonEscape t1 ++ u)
      have d2 := decodeEsc_escapeChar c2 (jsonEscape t2 ++ u)
      rw [h, d2] at d1
      injection d1 with d1
      have hn : c2.toNat = c1.toNat := congrArg Prod.fst d1
      have hr : jsonEscape t2 ++ u = jsonEscape t1 ++ u := congrArg Prod.snd d1
      rw [charToNat_inj hn.symm, ih t2 u hr.symm]

/-- Strings with equal character data are equal. -/
theorem stringData_inj {s t : String} (h : s.data = t.data) : s = t := by
  cases s
  cases t
  exact congrArg String.mk (by simpa using h)

/-- The citation sort key `(file, start_line, end_line)` determines the
citation (it lists all of its fields). -/
theorem citSortKey_inj {a b : Citation} (h : citSortKey a = citSortKey b) :
    a = b := by
  unfold citSortKey at h
  have h0 : (a.file.data, toLex (a.start_line, a.end_line)) =
      (b.file.data, toLex (b.start_line, b.end_line)) := toLex.injective h
  have hf : a.file.data = b.file.data := congrArg Prod.fst h0
  have h1 : (a.start_line, a.end_line) = (b.start_line, b.end_line) :=
    toLex.injective (congrArg Prod.snd h0)
  obtain ⟨af, as, ae⟩ := a
  obtain ⟨bf, bs, be⟩ := b
  simp only [Citation.mk.injEq]
  exact ⟨stringData_inj hf, congrArg Prod.fst h1, congrArg Prod.snd h1⟩

instance : IsAntisymm Citation citLe :=
  ⟨fun a b h1 h2 => citSortKey_inj (le_antisymm h1 h2)⟩

/-- C3 (amended).  `hash_output` is invariant under any permutation of the
citations list, and under any permutation of the chunks list provided no two
chunks share the `(file, start_line, end_line)` sort key (two equal-keyed
chunks with different text break the invariance, see the counterexample);
and two outputs that agree except in their answer text have different
hashes. -/
theorem hash_output_normalized :
    (∀ o1 o2 : RagOutput, o1.answer = o2.answer →
      o1.citations.Perm o2.citations → o1.chunks.Perm o2.chunks →
      (o1.chunks.map chunkSortKey).Nodup →
      hash_output o1 = hash_output o2) ∧
    (∀ o1 o2 : RagOutput, o1.citations = o2.citations → o1.chunks = o2.chunks →
      o1.answer ≠ o2.answer → hash_output o1 ≠ hash_output o2) := by
  constructor
  · intro o1 o2 hans hcit hch hnd
    have hc1 : List.insertionSort citLe o1.citations =
        List.insertionSort citLe o2.citations := by
      apply List.eq_of_perm_of_sorted (r := citLe)
      · exact ((List.perm_insertionSort citLe o1.citations).trans hcit).trans
          (List.perm_insertionSort citLe o2.citations).symm
      · exact List.sorted_insertionSort citLe _
      · exact List.sorted_insertionSort citLe _
    have hperm : (List.insertionSort chunkLe o1.chunks).Perm
        (List.insertionSort chunkLe o2.chunks) :=
      ((List.perm_insertionSort chunkLe o1.chunks).trans hch).trans
        (List.perm_insertionSort chunkLe o2.chunks).symm
    have hndS : ((List.insertionSort chunkLe o1.chunks).map chunkSortKey).Nodup :=
      (((List.perm_insertionSort chunkLe o1.chunks).map chunkSortKey).nodup_iff).mpr hnd
    have hk1 : List.insertionSort chunkLe o1.chunks =
        List.insertionSort chunkLe o2.chunks :=
      eq_of_perm_of_sorted_key chunkSortKey hperm
        (List.sorted_insertionSort chunkLe _)
        (List.sorted_insertionSort chunkLe _) hndS
    unfold hash_output
    rw [hans, hc1, hk1]
  · intro o1 o2 hcit hch hans heq
    apply hans
    unfold hash_output at heq
    rw [hcit, hch] at heq
    simp only [jsonStr, List.cons_append, List.nil_append, List.append_assoc,
      List.cons.injEq, true_and] at heq
    exact stringData_inj (jsonEscape_append_right_inj _ _ _ heq)

/-- Outputs for the C3 witness: equal up to permuting citations and chunks
(with pairwise-distinct chunk keys). -/
def hashOutW1 : RagOutput :=
  { answer := "ans",
    citations := [⟨"b.py", 3, 4⟩, ⟨"a.py", 1, 2⟩],
    chunks := [⟨"t2", "b.py", 3, 4⟩, ⟨"t1", "a.py", 1, 2⟩] }

/-- `hashOutW1` with both lists permuted. -/
def hashOutW2 : RagOutput :=
  { answer := "ans",
    citations := [⟨"a.py", 1, 2⟩, ⟨"b.py", 3, 4⟩],
    chunks := [⟨"t1", "a.py", 1, 2⟩, ⟨"t2", "b.py", 3, 4⟩] }

/-- `hashOutW1` with only the answer text changed. -/
def hashOutW3 : RagOutput :=
  { answer := "different",
    citations := [⟨"b.py", 3, 4⟩, ⟨"a.py", 1, 2⟩],
    chunks := [⟨"t2", "b.py", 3, 4⟩, ⟨"t1", "a.py", 1, 2⟩] }

/-- Witness for C3: permuting both internal lists preserves the hash, and
changing only the answer changes it. -/
theorem hash_output_normalized_witness :
    hash_output hashOutW1 = hash_output hashOutW2 ∧
      hash_output hashOutW1 ≠ hash_output hashOutW3 := by
  constructor
  · exact hash_output_normalized.1 hashOutW1 hashOutW2 (by decide) (by decide)
      (by decide) (by decide)
  · exact hash_output_normalized.2 hashOutW1 hashOutW3 (by decide) (by decide)
      (by decide)

/-- An output with two chunks that share the `(file, start_line, end_line)`
key but differ in text. -/
def hashCexO1 : RagOutput :=
  { answer := "a", citations := [],
    chunks := [⟨"t1", "f.py", 1, 2⟩, ⟨"t2", "f.py", 1, 2⟩] }

/-- The same output with the two chunks swapped. -/
def hashCexO2 : RagOutput :=
  { answer := "a", citations := [],
    chunks := [⟨"t2", "f.py", 1, 2⟩, ⟨"t1", "f.py", 1, 2⟩] }

/-- Counterexample to C3 as stated: permuting the chunks list of an
otherwise-identical output changes the hash when two chunks share the sort
key, because the stable sort keeps their input order and the texts then
serialize in different orders. -/
theorem hash_output_perm_counterexample :
    hashCexO1.answer = hashCexO2.answer ∧
      hashCexO1.citations.Perm hashCexO2.citations ∧
      hashCexO1.chunks.Perm hashCexO2.chunks ∧
      hash_output hashCexO1 ≠ hash_output hashCexO2 := by
  refine ⟨rfl, by decide, by decide, by decide⟩

/-! ## C8: the citation grammar of `generate_answer` -/

/-- A well-formed citation marker and the citation it denotes: `[`, a
non-empty file token free of `:` and `]`, `:`, a non-empty digit run, `-`, a
non-empty digit run, `]`. -/
def IsCitationMarker (m : List Char) (c : Citation) : Prop :=
  ∃ f d1 d2, m = '[' :: f ++ ':' :: d1 ++ '-' :: d2 ++ [']'] ∧
    f ≠ [] ∧ (∀ ch ∈ f, ch ≠ ':' ∧ ch ≠ ']') ∧
    d1 ≠ [] ∧ (∀ ch ∈ d1, ch.isDigit = true) ∧
    d2 ≠ [] ∧ (∀ ch ∈ d2, ch.isDigit = true) ∧
    c = ⟨⟨f⟩, digitsToNat d1, digitsToNat d2⟩

/-- A marker is never empty. -/
theorem isCitationMarker_ne_nil {m : List Char} {c : Citation}
    (h : IsCitationMarker m c) : m ≠ [] := by
  obtain ⟨f, d1, d2, rfl, _⟩ := h
  simp

/-- `takeWhile` over a satisfying run that hits a failing element. -/
theorem takeWhile_append_stop {α : Type} {p : α → Bool} {f : List α} {y : α}
    (hf : ∀ x ∈ f, p x = true) (hy : p y = false) (t : List α) :
    (f ++ y :: t).takeWhile p = f := by
  induction f with
  | nil => simp [List.takeWhile, hy]
  | cons a f ih =>
    simp only [List.cons_append, List.takeWhile, hf a (List.mem_cons_self a f),
      List.append_eq]
    rw [ih (fun x hx => hf x (List.mem_cons_of_mem a hx))]

/-- `dropWhile` over a satisfying run that hits a failing element. -/
theorem dropWhile_append_stop {α : Type} {p : α → Bool} {f : List α} {y : α}
    (hf : ∀ x ∈ f, p x = true) (hy : p y = false) (t : List α) :
    (f ++ y :: t).dropWhile p = y :: t := by
  induction f with
  | nil => simp [List.dropWhile, hy]
  | cons a f ih =>
    simp only [List.cons_append, List.dropWhile, hf a (List.mem_cons_self a f),
      List.append_eq]
    exact ih (fun x hx => hf x (List.mem_cons_of_mem a hx))

/-- Soundness of one anchored match: on success the input splits into a
well-formed marker denoting the returned citation, followed by the
remainder. -/
theorem matchCitationAt_sound : ∀ {cs : List Char} {cit : Citation}
    {r : List Char}, matchCitationAt cs = some (cit, r) →
    ∃ m, cs = m ++ r ∧ IsCitationMarker m cit := by
  intro cs cit r h
  match cs with
  | [] => simp [matchCitationAt] at h
  | c0 :: rest =>
    simp only [matchCitationAt] at h
    by_cases h0 : c0 = '['
    · rw [if_pos h0] at h
      subst h0
      rcases hr1 : rest.dropWhile (fun c => decide (c ≠ ':' ∧ c ≠ ']')) with _ | ⟨c1, r2⟩
      · simp only [hr1] at h
        exact absurd h (by simp)
      · simp only [hr1] at h
        by_cases h1 : c1 = ':'
        · rw [if_pos h1] at h
          subst h1
          by_cases hft : rest.takeWhile (fun c => decide (c ≠ ':' ∧ c ≠ ']')) = []
          · rw [if_pos hft] at h; simp at h
          · rw [if_neg hft] at h
            rcases hr3 : r2.dropWhile Char.isDigit with _ | ⟨c2, r4⟩
            · simp only [hr3] at h
              exact absurd h (by simp)
            · simp only [hr3] at h
              by_cases h2 : c2 = '-'
              · rw [if_pos h2] at h
                subst h2
                by_cases hd1 : r2.takeWhile Char.isDigit = []
                · rw [if_pos hd1] at h; simp at h
                · rw [if_neg hd1] at h
                  rcases hr5 : r4.dropWhile Char.isDigit with _ | ⟨c3, r6⟩
                  · simp only [hr5] at h
                    exact absurd h (by simp)
                  · simp only [hr5] at h
                    by_cases h3 : c3 = ']'
                    · rw [if_pos h3] at h
                      subst h3
                      by_cases hd2 : r4.takeWhile Char.isDigit = []
                      · rw [if_pos hd2] at h; simp at h
                      · rw [if_neg hd2] at h
                        have hcit : cit = ⟨⟨rest.takeWhile (fun c => decide (c ≠ ':' ∧ c ≠ ']'))⟩,
                            digitsToNat (r2.takeWhile Char.isDigit),
                            digitsToNat (r4.takeWhile Char.isDigit)⟩ := by
                          have := congrArg (fun o => o.map Prod.fst) h
                          simpa using this.symm
                        have hrr : r6 = r := by
                          have := congrArg (fun o => o.map Prod.snd) h
                          simpa using this
                        subst hrr
                        refine ⟨'[' :: rest.takeWhile (fun c => decide (c ≠ ':' ∧ c ≠ ']')) ++
                          ':' :: r2.takeWhile Char.isDigit ++
                          '-' :: r4.takeWhile Char.isDigit ++ [']'], ?_, ?_⟩
                        · have e1 : rest = rest.takeWhile (fun c => decide (c ≠ ':' ∧ c ≠ ']')) ++
                              (':' :: r2) := by
                            rw [← hr1, List.takeWhile_append_dropWhile]
                          have e2 : r2 = r2.takeWhile Char.isDigit ++ ('-' :: r4) := by
                            rw [← hr3, List.takeWhile_append_dropWhile]
                          have e3 : r4 = r4.takeWhile Char.isDigit ++ (']' :: r6) := by
                            rw [← hr5, List.takeWhile_append_dropWhile]
                          conv_lhs => rw [e1, e2, e3]
                          simp
                        · refine ⟨rest.takeWhile (fun c => decide (c ≠ ':' ∧ c ≠ ']')),
                            r2.takeWhile Char.isDigit, r4.takeWhile Char.isDigit,
                            rfl, hft, ?_, hd1, ?_, hd2, ?_, hcit⟩
                          · intro ch hch
                            have := List.mem_takeWhile_imp hch
                            simpa using this
                          · intro ch hch
                            exact List.mem_takeWhile_imp hch
                          · intro ch hch
                            exact List.mem_takeWhile_imp hch
                    · rw [if_neg h3] at h; simp at h
              · rw [if_neg h2] at h; simp at h
        · rw [if_neg h1] at h; simp at h
    · rw [if_neg h0] at h; simp at h

/-- Completeness of one anchored match: a well-formed marker at the head of
the input is matched exactly, whatever follows. -/
theorem matchCitationAt_complete {m post : List Char} {cit : Citation}
    (hm : IsCitationMarker m cit) :
    matchCitationAt (m ++ post) = some (cit, post) := by
  obtain ⟨f, d1, d2, rfl, hfne, hfmem, hd1ne, hd1dig, hd2ne, hd2dig, hc⟩ := hm
  have hpf : ∀ x ∈ f, (fun c => decide (c ≠ ':' ∧ c ≠ ']')) x = true := by
    intro x hx
    simpa using hfmem x hx
  have e0 : ('[' :: f ++ ':' :: d1 ++ '-' :: d2 ++ [']']) ++ post =
      '[' :: (f ++ ':' :: (d1 ++ '-' :: (d2 ++ ']' :: post))) := by
    simp
  rw [e0]
  simp only [matchCitationAt, eq_self_iff_true, if_true]
  rw [takeWhile_append_stop hpf (by decide) _,
    dropWhile_append_stop hpf (by decide) _]
  simp only [eq_self_iff_true, if_true, if_neg hfne]
  rw [takeWhile_append_stop hd1dig (by decide) _,
    dropWhile_append_stop hd1dig (by decide) _]
  simp only [eq_self_iff_true, if_true, if_neg hd1ne]
  rw [takeWhile_append_stop hd2dig (by decide) _,
    dropWhile_append_stop hd2dig (by decide) _]
  simp only [eq_self_iff_true, if_true, if_neg hd2ne]
  rw [hc]

/-- Soundness of the scanning loop: every extracted citation comes from a
well-formed marker occurring in the text. -/
theorem scanAux_sound : ∀ (fuel : Nat) (cs : List Char), cs.length ≤ fuel →
    ∀ c ∈ scanCitationsAux fuel cs,
      ∃ pre m post, cs = pre ++ m ++ post ∧ IsCitationMarker m c := by
  intro fuel
  induction fuel with
  | zero =>
    intro cs _ c hc
    simp [scanCitationsAux] at hc
  | succ fuel ih =>
    intro cs hlen c hc
    match cs with
    | [] => simp [scanCitationsAux] at hc
    | c0 :: rest =>
      rcases hm : matchCitationAt (c0 :: rest) with _ | ⟨cit, r⟩
      · simp only [scanCitationsAux, hm] at hc
        obtain ⟨pre, m, post, heq, hmk⟩ :=
          ih rest (by simpa using Nat.le_of_succ_le_succ hlen) c hc
        exact ⟨c0 :: pre, m, post, by simp [heq], hmk⟩
      · simp only [scanCitationsAux, hm] at hc
        obtain ⟨mk, hsplit, hmk⟩ := matchCitationAt_sound hm
        have hrlen : r.length ≤ fuel := by
          have hne := isCitationMarker_ne_nil hmk
          have := congrArg List.length hsplit
          simp only [List.length_append, List.length_cons] at this hlen
          have hpos : 0 < mk.length := List.length_pos.mpr hne
          omega
        rcases List.mem_cons.mp hc with rfl | hc2
        · exact ⟨[], mk, r, by simpa using hsplit, hmk⟩
        · obtain ⟨pre, m, post, heq, hmk2⟩ := ih r hrlen c hc2
          refine ⟨mk ++ pre, m, post, ?_, hmk2⟩
          rw [hsplit, heq]
          simp

/-- Completeness of the scanning loop: if a well-formed marker occurs
anywhere in the text, at least one citation is extracted. -/
theorem scanAux_complete : ∀ (fuel : Nat) (cs : List Char), cs.length ≤ fuel →
    (∃ pre m post c, cs = pre ++ m ++ post ∧ IsCitationMarker m c) →
    scanCitationsAux fuel cs ≠ [] := by
  intro fuel
  induction fuel with
  | zero =>
    intro cs hlen ⟨pre, m, post, c, heq, hmk⟩
    exfalso
    have hne := isCitationMarker_ne_nil hmk
    have := congrArg List.length heq
    simp only [List.length_append] at this
    have hpos : 0 < m.length := List.length_pos.mpr hne
    omega
  | succ fuel ih =>
    intro cs hlen hex
    match cs with
    | [] =>
      exfalso
      obtain ⟨pre, m, post, c, heq, hmk⟩ := hex
      have hne := isCitationMarker_ne_nil hmk
      have := congrArg List.length heq
      simp only [List.length_append, List.length_nil] at this
      have hpos : 0 < m.length := List.length_pos.mpr hne
      omega
    | c0 :: rest =>
      rcases hm : matchCitationAt (c0 :: rest) with _ | ⟨cit, r⟩
      · simp only [scanCitationsAux, hm]
        obtain ⟨pre, m, post, c, heq, hmk⟩ := hex
        match pre with
        | [] =>
          exfalso
          have hcomp : matchCitationAt (m ++ post) = some (c, post) :=
            matchCitationAt_complete hmk
          have heq' : m ++ post = c0 :: rest := by simpa using heq.symm
          rw [heq', hm] at hcomp
          exact absurd hcomp (by simp)
        | p0 :: pre' =>
          apply ih rest (by simpa using Nat.le_of_succ_le_succ hlen)
          simp only [List.cons_append, List.cons.injEq] at heq
          exact ⟨pre', m, post, c, heq.2, hmk⟩
      · simp [scanCitationsAux, hm]

/-- C8.  `generate_answer` extracts as citations exactly the well-formed
markers of the grammar `[`, file token without `:` or `]`, `:`, integer,
`-`, integer, `]`: every extracted citation arises from a marker occurring
in the answer text with exactly those parsed fields; some citation is
extracted whenever a marker occurs; and an answer without any well-formed
marker yields the empty citation list — the scanner is a total function, so
no error is possible. -/
theorem generate_answer_citations_grammar (llm : String → String)
    (question : String) (chunks : List RankedChunk) :
    (∀ c ∈ (generate_answer llm question chunks).citations,
      ∃ pre m post,
        (generate_answer llm question chunks).answer.data = pre ++ m ++ post ∧
          IsCitationMarker m c) ∧
      ((∃ pre m post c,
        (generate_answer llm question chunks).answer.data = pre ++ m ++ post ∧
          IsCitationMarker m c) →
        (generate_answer llm question chunks).citations ≠ []) ∧
      ((¬ ∃ pre m post c,
        (generate_answer llm question chunks).answer.data = pre ++ m ++ post ∧
          IsCitationMarker m c) →
        (generate_answer llm question chunks).citations = []) := by
  refine ⟨?_, ?_, ?_⟩
  · intro c hc
    exact scanAux_sound _ _ le_rfl c hc
  · intro hex
    exact scanAux_complete _ _ le_rfl hex
  · intro hnot
    by_contra hne
    obtain ⟨c, hc⟩ := List.exists_mem_of_ne_nil _ hne
    obtain ⟨pre, m, post, heq, hmk⟩ := scanAux_sound _ _ le_rfl c hc
    exact hnot ⟨pre, m, post, c, heq, hmk⟩

/-- Witness for C8: an answer containing the marker `[main.py:1-20]` yields
that citation, and the marker's occurrence forces a non-empty citation
list. -/
theorem generate_answer_citations_grammar_witness :
    (∃ pre m post,
      (generate_answer (fun _ => "See [main.py:1-20] here.") "q" []).answer.data =
        pre ++ m ++ post ∧
        IsCitationMarker m ⟨"main.py", 1, 20⟩) ∧
      (generate_answer (fun _ => "See [main.py:1-20] here.") "q" []).citations ≠ [] := by
  constructor
  · exact (generate_answer_citations_grammar
      (fun _ => "See [main.py:1-20] here.") "q" []).1 ⟨"main.py", 1, 20⟩ (by decide)
  · apply (generate_answer_citations_grammar
      (fun _ => "See [main.py:1-20] here.") "q" []).2.1
    refine ⟨"See ".data,
      '[' :: "main.py".data ++ ':' :: ['1'] ++ '-' :: ['2', '0'] ++ [']'],
      " here.".data, ⟨"main.py", 1, 20⟩, ?_,
      "main.py".data, ['1'], ['2', '0'], rfl, ?_, ?_, ?_, ?_, ?_, ?_, ?_⟩ <;>
      decide

end Atlas
